import Mathlib

/-!
Shallow embedding of `src/poetry/console/commands/inspect.py` (the `poetry
inspect` command) and proofs about its behaviour.

Modelling conventions:
* Python `dict[str, str | list[str]]` becomes an ordered association list
  `MetadataRecord := List (String × Value)` with Python-dict insertion
  semantics (`dictInsert` keeps the position of an existing key, appends a
  fresh key at the end; `dictUpdate` folds `dictInsert` over the incoming
  pairs, exactly like `dict.update`).
* Python string operations used by the source are embedded character-wise
  (`str.replace` with one-character patterns, `str.capitalize`, `str.lower`,
  `len`, slicing `[:n]`), which matches CPython semantics for those calls.
* Fallible code (the `name, url_ = url.split(",")` unpacking, which raises
  `ValueError` when the split does not yield exactly two parts) is embedded
  in `Except String`.
* The command's observable effects are collected in a `HandleResult`:
  lines written via `self.line` (standard output), lines written via
  `self.line_error` (error stream), the record handed to `json.dump`
  (written to `sys.stderr`), and the rows handed to the compact table
  renderer, plus the returned exit code.
-/

/-- A metadata value: Python `str | list[str]`. -/
inductive Value where
  | str (s : String)
  | list (l : List String)
deriving DecidableEq, Repr

/-- Ordered mapping from property names to values (Python `dict`). -/
abbrev MetadataRecord := List (String × Value)

/-- The `poetry.core` package object, restricted to the four attributes the
command reads.  `name` holds the canonical form, as in `poetry.core`. -/
structure Package where
  name : String
  pretty_name : String
  pretty_version : String
  description : String
deriving DecidableEq, Repr

/-- Constant `DISPLAY_GAP_FOR_SAME_KEY` — gap after new-line for list items in compact mode. -/
def DISPLAY_GAP_FOR_SAME_KEY : String := "\n   "

/-- Constant `MAX_DISPLAY_LINE_LENGTH`. -/
def MAX_DISPLAY_LINE_LENGTH : Nat := 79

/-- Constant `SKIP_PROPERTIES` — properties skipped by default when displaying. -/
def SKIP_PROPERTIES : List String := ["description", "summary", "metadata_version"]

/-- Constant `URL_PROPERTIES` — properties that may hold URL(s). -/
def URL_PROPERTIES : List String := ["project_url"]

/-- Constant `LONG_PROPERTIES` — properties that may exceed `MAX_DISPLAY_LINE_LENGTH`. -/
def LONG_PROPERTIES : List String := ["license"]

/-- Python `str.capitalize()`: first character upper-cased, the rest lower-cased. -/
def pyCapitalize (s : String) : String :=
  match s.data with
  | [] => ""
  | c :: cs => String.mk (c.toUpper :: cs.map Char.toLower)

/-- Python `s.replace(a, b)` for one-character `a`, `b`: character-wise substitution. -/
def pyReplaceChar (s : String) (a b : Char) : String :=
  String.mk (s.data.map fun c => if c = a then b else c)

/-- Function `prettify(s)`: `s.replace("_", " ").capitalize()`. -/
def prettify (s : String) : String :=
  pyCapitalize (pyReplaceChar s '_' ' ')

/-- Characters the canonicalization regex `[-_.]+` collapses. -/
def isSepChar (c : Char) : Bool := c = '-' || c = '_' || c = '.'

/-- Collapse consecutive dashes into one (the effect of substituting the
maximal runs matched by `[-_.]+` once each separator is mapped to a dash). -/
def squashDashes : List Char → List Char
  | [] => []
  | [c] => [c]
  | c :: d :: rest =>
    if c = '-' && d = '-' then squashDashes (d :: rest)
    else c :: squashDashes (d :: rest)

/-- Function `packaging.utils.canonicalize_name`: replace runs of `-`, `_`, `.` by a
single `-` and lower-case the result. -/
def canonicalize_name (s : String) : String :=
  String.mk (squashDashes (s.data.map fun c => if isSepChar c then '-' else c.toLower))

/-- Python `s.split(sep)` for a one-character separator, accumulator form. -/
def pySplitAux (sepc : Char) : List Char → List Char → List String
  | [], acc => [String.mk acc.reverse]
  | c :: cs, acc =>
    if c = sepc then String.mk acc.reverse :: pySplitAux sepc cs []
    else pySplitAux sepc cs (c :: acc)

/-- Python `s.split(sep)` for a one-character separator: split at every
occurrence (`"".split(",") = [""]`, `"a,,b".split(",") = ["a","","b"]`). -/
def pySplit (sepc : Char) (s : String) : List String :=
  pySplitAux sepc s.data []

/-- Function `display_pretty_urls(urls)`.  The source unpacks `url.split(",")` into
exactly two names, so an element whose split has fewer or more than two
parts raises `ValueError`; this is the `Except.error` case. -/
def display_pretty_urls (urls : List String) : Except String String := do
  let res ← urls.mapM fun url =>
    match pySplit ',' url with
    | [name, url_] => Except.ok ("<c1>" ++ name ++ "</> -" ++ url_)
    | _ => Except.error "ValueError: url.split comma unpack"
  return String.intercalate DISPLAY_GAP_FOR_SAME_KEY res

/-- Function `display_pretty_list(items)`. -/
def display_pretty_list (items : List String) : String :=
  String.intercalate DISPLAY_GAP_FOR_SAME_KEY items

/-- Python `d[k] = v` on a dict: replace in place when `k` is present,
append at the end otherwise. -/
def dictInsert (d : MetadataRecord) (k : String) (v : Value) : MetadataRecord :=
  if d.any (fun p => p.1 == k) then
    d.map fun p => if p.1 == k then (k, v) else p
  else d ++ [(k, v)]

/-- Python `d.update(j)`: insert the pairs of `j` in order. -/
def dictUpdate (d : MetadataRecord) (j : List (String × Value)) : MetadataRecord :=
  j.foldl (fun acc p => dictInsert acc p.1 p.2) d

/-- The installed distribution, as the command consumes it: the structured
metadata view (`Distribution.metadata.json`; `none` when the metadata object
has no `json` attribute) and the entry points (name/value pairs). -/
structure InstalledDist where
  jsonMeta : Option (List (String × Value))
  entryPoints : List (String × String)
deriving DecidableEq, Repr

/-- Method `InspectCommand.get_entry_points`. -/
def get_entry_points (dist : InstalledDist) : List String :=
  dist.entryPoints.map fun ep => ep.1 ++ " source: " ++ ep.2

/-- Method `InspectCommand.inspect_metadata`.  `dist = none` models
`Distribution.from_name` raising `PackageNotFoundError`.  Returns the lines
written via `self.line` together with the resulting record. -/
def inspect_metadata (package : Package) (dist : Option InstalledDist) :
    List String × MetadataRecord :=
  let metadata : MetadataRecord :=
    [("name", .str package.pretty_name),
     ("version", .str package.pretty_version),
     ("package_description", .str package.description)]
  match dist with
  | none =>
    (["<warning>Could not find package metadata for name: " ++ package.name ++
        ": showing basic info</>"], metadata)
  | some d =>
    let (lines, metadata) :=
      match d.jsonMeta with
      | some j => (([] : List String), dictUpdate metadata j)
      | none =>
        (["<error>Could not find distribution metadata: " ++ package.name ++ "</>"],
         metadata)
    match get_entry_points d with
    | [] => (lines, metadata)
    | ep => (lines, dictInsert metadata "entry_points" (.list ep))

/-- Method `InspectCommand._get_package_from_dependency`.  `rootPkg` is
`self.poetry.package`, `lockedPackages` the packages of the locked
repository.  The `Except.error` case models the raised `ValueError`. -/
def get_package_from_dependency (rootPkg : Package) (lockedPackages : List Package)
    (dep : String) : Except String Package :=
  if dep ≠ "" then
    let pkg := (lockedPackages.find? fun locked =>
      locked.name == canonicalize_name dep).getD rootPkg
    if pkg = rootPkg then
      Except.error ("Package \x27" ++ dep ++ "\x27 not found")
    else Except.ok pkg
  else Except.ok rootPkg

/-- The value of `items` in `build_rows_from_metadata` after the
URL/list-joining branches (always a string; fails when
`display_pretty_urls` raises). -/
def build_row_item (prop : String) (items : Value) : Except String String :=
  if URL_PROPERTIES.contains prop then
    match items with
    | .list l => display_pretty_urls l
    | .str s => Except.ok s
  else
    match items with
    | .list l => Except.ok (display_pretty_list l)
    | .str s => Except.ok s

/-- The long-property truncation applied to `items` in
`build_rows_from_metadata`. -/
def truncateLong (prop : String) (items : String) : String :=
  if LONG_PROPERTIES.contains prop ∧ MAX_DISPLAY_LINE_LENGTH < items.length then
    items.take MAX_DISPLAY_LINE_LENGTH ++
      "... <comment>(use <info>-p " ++ prop ++ "</info> to see full " ++ prop ++
      ")</comment>"
  else items

/-- Method `InspectCommand.build_rows_from_metadata`. -/
def build_rows_from_metadata : MetadataRecord → Except String (List (List String))
  | [] => Except.ok []
  | (prop, items) :: rest =>
    if SKIP_PROPERTIES.contains prop then build_rows_from_metadata rest
    else do
      let s ← build_row_item prop items
      let s := truncateLong prop s
      let rows ← build_rows_from_metadata rest
      return (["<info>" ++ prettify prop ++ "</>", " : <b>" ++ s ++ "</>"] :: rows)

/-- Method `InspectCommand.display_normal`: the lines written via `self.line`. -/
def display_normal : MetadataRecord → List String → List String
  | [], _ => []
  | (key, value) :: rest, props =>
    if SKIP_PROPERTIES.contains key && props.isEmpty then
      display_normal rest props
    else if !props.isEmpty && !props.contains key then
      display_normal rest props
    else
      ("<b><info>" ++ prettify key ++ "</info></b>") ::
      (match value with
       | .list items => items.map fun item => "<c1> - " ++ item ++ "</c1>"
       | .str v => ["<c2> " ++ v ++ "</c2>"]) ++
      [""] ++ display_normal rest props

/-- The observable effects of one `handle` run. -/
structure HandleResult where
  exitCode : Nat
  stdout : List String
  errLines : List String
  jsonStderr : Option MetadataRecord
  tableRows : Option (List (List String))
deriving DecidableEq, Repr

/-- The property-validation loop of `handle`: walks `props` in order,
failing with the first name missing from `metadata` and otherwise building
`display_metadata` by dict insertion. -/
def buildDisplayMetadata (metadata : MetadataRecord) :
    List String → MetadataRecord → Except String MetadataRecord
  | [], acc => Except.ok acc
  | p :: ps, acc =>
    match metadata.lookup p with
    | none => Except.error p
    | some v => buildDisplayMetadata metadata ps (dictInsert acc p v)

/-- Method `InspectCommand.handle`, given the resolved package's canonical name
and the gathered metadata (resolution and gathering are modelled by
`get_package_from_dependency` and `inspect_metadata`).  The flags are the
`--list-properties`, `--json`, `--compact` options and `props` the repeated
`--property` values.  The `Except.error` case models the `ValueError`
escaping from `display_pretty_urls` during compact rendering. -/
def handle (pkgName : String) (metadata : MetadataRecord)
    (optListProps optJson optCompact : Bool) (props : List String) :
    Except String HandleResult :=
  if optListProps then
    let propLines := String.intercalate "\n"
      ((metadata.map Prod.fst).map fun x => "- " ++ x)
    Except.ok ⟨0,
      ["<b>Available properties for <info>" ++ pkgName ++ "</info> are:</b>",
       "<info>" ++ propLines ++ "</info>"], [], none, none⟩
  else
    match buildDisplayMetadata metadata props [] with
    | Except.error prop =>
      Except.ok ⟨1, [],
        ["<error>Property \x27" ++ prop ++ "\x27 not available.</error>"],
        none, none⟩
    | Except.ok dm0 =>
      let display_metadata := if dm0.isEmpty then metadata else dm0
      if optJson then
        Except.ok ⟨0, [], [], some display_metadata, none⟩
      else if optCompact then do
        let rows ← build_rows_from_metadata display_metadata
        return ⟨0, [], [], none, some rows⟩
      else
        Except.ok ⟨0, display_normal display_metadata props, [], none, none⟩

/-! ### Header re-parsing for the Normal-mode round-trip -/

/-- The opening markup of a Normal-mode header line (9 characters). -/
def HEADER_OPEN : List Char := ['<', 'b', '>', '<', 'i', 'n', 'f', 'o', '>']

/-- The closing markup of a Normal-mode header line (11 characters). -/
def HEADER_CLOSE : List Char := ['<', '/', 'i', 'n', 'f', 'o', '>', '<', '/', 'b', '>']

/-- Re-parse a printed line: recover the prettified key from a header line
(strip the `<b><info>`/`</info></b>` wrapping); `none` on a value or blank
line. -/
def headerOfLine (l : String) : Option String :=
  if HEADER_OPEN.isPrefixOf l.data then
    some (String.mk ((l.data.drop 9).take ((l.data.drop 9).length - 11)))
  else none

/-- The header reversal of the round-trip claim: lowercase the header and
replace spaces with underscores. -/
def unprettify (s : String) : String :=
  String.mk (s.data.map fun c => if c.toLower = ' ' then '_' else c.toLower)

/-- Keys recovered from a Normal-mode rendering with no explicit property
filter: re-parse each printed header and apply the reversal. -/
def recoveredKeys (data : MetadataRecord) : List String :=
  ((display_normal data []).filterMap headerOfLine).map unprettify

/-- The characters occurring in real metadata property keys: lowercase
ASCII letters, digits, underscore, hyphen, dot. -/
def keyChars : List Char := "abcdefghijklmnopqrstuvwxyz0123456789_-.".data

/-! ### Helper lemmas about the property-validation loop -/

/-- The validation loop fails with `p` exactly when `p` is the first
requested property whose lookup in the metadata fails. -/
theorem buildDisplayMetadata_error_iff (md : MetadataRecord) (props : List String)
    (acc : MetadataRecord) (p : String) :
    buildDisplayMetadata md props acc = Except.error p ↔
      props.find? (fun q => (md.lookup q).isNone) = some p := by
  induction props generalizing acc with
  | nil => simp [buildDisplayMetadata]
  | cons q qs ih =>
    cases hq : md.lookup q with
    | none => simp [buildDisplayMetadata, hq, List.find?]
    | some v => simp [buildDisplayMetadata, hq, List.find?, ih]

/-- When every requested property is present, the validation loop succeeds. -/
theorem buildDisplayMetadata_ok_of_none (md : MetadataRecord) (props : List String)
    (h : props.find? (fun q => (md.lookup q).isNone) = none) :
    ∃ dm0, buildDisplayMetadata md props [] = Except.ok dm0 := by
  cases hb : buildDisplayMetadata md props [] with
  | error p =>
    rw [buildDisplayMetadata_error_iff] at hb
    rw [h] at hb
    exact absurd hb (by simp)
  | ok dm0 => exact ⟨dm0, rfl⟩

/-! ### Claim theorems -/

/-- Claim C3: when the installed distribution is not found
(`PackageNotFoundError`), `inspect_metadata` emits the
"Could not find package metadata" warning, does not fail, and returns
exactly the three-key seeded record built from `pretty_name`,
`pretty_version` and `description`. -/
theorem c3_metadata_not_found (pkg : Package) :
    inspect_metadata pkg none =
      (["<warning>Could not find package metadata for name: " ++ pkg.name ++
          ": showing basic info</>"],
       [("name", Value.str pkg.pretty_name),
        ("version", Value.str pkg.pretty_version),
        ("package_description", Value.str pkg.description)]) := rfl

/-- Claim C5: in compact mode, a `license` value longer than 79 characters
is rendered as its first 79 characters followed by the fixed
`-p license` hint suffix, and a value of length at most 79 is rendered
unchanged. -/
theorem c5_license_truncation (s : String) :
    build_rows_from_metadata [("license", Value.str s)] =
      Except.ok [["<info>License</>",
        " : <b>" ++
          (if 79 < s.length then
            s.take 79 ++
              "... <comment>(use <info>-p license</info> to see full license)</comment>"
          else s) ++ "</>"]] := by
  have h1 : SKIP_PROPERTIES.contains "license" = false := by decide
  have h2 : URL_PROPERTIES.contains "license" = false := by decide
  have h3 : LONG_PROPERTIES.contains "license" = true := by decide
  have h4 : prettify "license" = "License" := by decide
  simp only [build_rows_from_metadata, build_row_item, truncateLong, h1, h2, h3,
    h4, MAX_DISPLAY_LINE_LENGTH, Bool.false_eq_true, if_false, true_and,
    if_true, Bind.bind, Except.bind]
  split <;> simp_all [String.append_assoc, Pure.pure, Except.pure]

/-- Claim C6: in JSON mode the record handed to `json.dump` on `sys.stderr`
is the gathered record with no default skip-list applied, restricted to the
explicit property list exactly when one was given, and nothing is written
to standard output (no stdout lines, no table). -/
theorem c6_json_mode (pkgName : String) (md : MetadataRecord) (c : Bool)
    (props : List String) (dm0 : MetadataRecord)
    (h : buildDisplayMetadata md props [] = Except.ok dm0) :
    handle pkgName md false true c props =
      Except.ok ⟨0, [], [], some (if dm0.isEmpty then md else dm0), none⟩ := by
  simp only [handle, if_false, Bool.false_eq_true, h, if_true]

/-- Witness for C6 at a concrete record and filter. -/
theorem c6_json_mode_witness :
    handle "pkg" [("name", Value.str "x"), ("summary", Value.str "s")] false true
        false ["summary"] =
      Except.ok ⟨0, [], [], some [("summary", Value.str "s")], none⟩ :=
  c6_json_mode "pkg" [("name", Value.str "x"), ("summary", Value.str "s")] false
    ["summary"] [("summary", Value.str "s")] (by rfl)

/-- Claim C4: outside list-properties mode, when some requested property is
missing from the gathered metadata the command exits with code 1 and writes
exactly one error line naming the first missing property in request order;
when every requested property is present, any normally-completed run exits
with code 0. -/
theorem c4_property_validation (pkgName : String) (md : MetadataRecord)
    (j c : Bool) (props : List String) :
    (∀ p, props.find? (fun q => (md.lookup q).isNone) = some p →
      handle pkgName md false j c props =
        Except.ok ⟨1, [],
          ["<error>Property \x27" ++ p ++ "\x27 not available.</error>"],
          none, none⟩) ∧
    (props.find? (fun q => (md.lookup q).isNone) = none →
      ∀ r, handle pkgName md false j c props = Except.ok r → r.exitCode = 0) := by
  constructor
  · intro p hp
    rw [← buildDisplayMetadata_error_iff md props [] p] at hp
    simp only [handle, if_false, Bool.false_eq_true, hp]
  · intro hnone r hr
    obtain ⟨dm0, hdm⟩ := buildDisplayMetadata_ok_of_none md props hnone
    simp only [handle, if_false, Bool.false_eq_true, hdm] at hr
    cases j with
    | true => cases hr; rfl
    | false =>
      cases c with
      | false => simp at hr; cases hr; rfl
      | true =>
        simp only [Bool.false_eq_true, if_false, if_true] at hr
        cases hb : build_rows_from_metadata (if dm0.isEmpty then md else dm0) with
        | error e => rw [hb] at hr; simp [Bind.bind, Except.bind] at hr
        | ok rows =>
          rw [hb] at hr
          simp only [Bind.bind, Except.bind, Pure.pure, Except.pure,
            Except.ok.injEq] at hr
          cases hr; rfl

/-- Witness for C4 at a concrete record: a missing first property and an
all-present request. -/
theorem c4_property_validation_witness :
    handle "pkg" [("name", Value.str "x")] false false false ["nope", "name"] =
      Except.ok ⟨1, [], ["<error>Property \x27nope\x27 not available.</error>"],
        none, none⟩ :=
  (c4_property_validation "pkg" [("name", Value.str "x")] false false
    ["nope", "name"]).1 "nope" (by decide)

/-- Claim C10: mode-flag precedence.  `--list-properties` short-circuits
everything: whatever the other flags and the (possibly invalid) `--property`
names, the command prints the property listing and exits 0, never the
exit-code-1 validation path.  When `--json` and `--compact` are both given,
the JSON branch runs: the record goes to `json.dump` on the error stream and
no table rows are produced. -/
theorem c10_mode_precedence (pkgName : String) (md : MetadataRecord) :
    (∀ (j c : Bool) (props : List String),
      handle pkgName md true j c props =
        Except.ok ⟨0,
          ["<b>Available properties for <info>" ++ pkgName ++ "</info> are:</b>",
           "<info>" ++ String.intercalate "\n"
              ((md.map Prod.fst).map fun x => "- " ++ x) ++ "</info>"],
          [], none, none⟩) ∧
    (∀ (props : List String) (dm0 : MetadataRecord),
      buildDisplayMetadata md props [] = Except.ok dm0 →
      handle pkgName md false true true props =
        Except.ok ⟨0, [], [], some (if dm0.isEmpty then md else dm0), none⟩) := by
  constructor
  · intro j c props
    simp only [handle, if_true]
  · intro props dm0 h
    exact c6_json_mode pkgName md true props dm0 h

/-- Witness for C10: list-properties mode with an invalid requested
property still lists and exits 0. -/
theorem c10_mode_precedence_witness :
    handle "pkg" [("name", Value.str "x")] true false true ["nope"] =
      Except.ok ⟨0,
        ["<b>Available properties for <info>pkg</info> are:</b>",
         "<info>- name</info>"], [], none, none⟩ := by
  have h := (c10_mode_precedence "pkg" [("name", Value.str "x")]).1 false true ["nope"]
  rw [h]; rfl

/-- Counterexample to C1 as stated: with metadata containing `description`
and the explicit filter `["description"]`, compact mode renders no row at
all — the skip-list wins over the explicit filter in compact mode. -/
theorem c1_counterexample :
    handle "pkg" [("name", Value.str "x"), ("description", Value.str "d")]
        false false true ["description"] =
      Except.ok ⟨0, [], [], none, some []⟩ := by rfl

/-- Claim C1 (amended): in Normal mode an explicitly filtered property is
always rendered, skip-list or not; in compact mode, however,
`build_rows_from_metadata` drops skip-list properties unconditionally, so
they are never rendered even when explicitly requested. -/
theorem c1_amended :
    (∀ (data : MetadataRecord) (props : List String) (key : String) (v : Value),
      key ∈ props → (key, v) ∈ data →
      ("<b><info>" ++ prettify key ++ "</info></b>") ∈ display_normal data props) ∧
    (∀ data : MetadataRecord,
      build_rows_from_metadata data =
        build_rows_from_metadata
          (data.filter fun p => !SKIP_PROPERTIES.contains p.1)) := by
  constructor
  · intro data props key v hkp hmem
    induction data with
    | nil => simp at hmem
    | cons hd rest ih =>
      obtain ⟨k0, v0⟩ := hd
      have hne : props.isEmpty = false := by
        cases props with
        | nil => simp at hkp
        | cons a as => rfl
      rcases List.mem_cons.mp hmem with heq | htail
      · obtain ⟨hk, hv⟩ := Prod.mk.injEq .. ▸ heq
        subst hk
        have hc : props.contains key = true := List.elem_eq_true_of_mem hkp
        simp [display_normal, hne, hc, hkp]
      · have := ih htail
        simp only [display_normal]
        split
        · exact this
        · split
          · exact this
          · simp only [List.cons_append, List.mem_cons, List.mem_append]
            right
            right
            simpa using this
  · intro data
    induction data with
    | nil => rfl
    | cons hd rest ih =>
      obtain ⟨p, v⟩ := hd
      by_cases hp : SKIP_PROPERTIES.contains p = true
      · simp only [build_rows_from_metadata, hp, if_true, List.filter_cons,
          Bool.not_eq_true', hp, Bool.not_true, if_false]
        simpa using ih
      · have hp' : SKIP_PROPERTIES.contains p = false := by
          simpa using hp
        simp only [build_rows_from_metadata, hp', List.filter_cons,
          Bool.not_eq_true', Bool.false_eq_true, if_false, Bool.not_false,
          if_true]
        rw [ih]

/-- Witness for the amended C1: `description` explicitly requested is
rendered in Normal mode. -/
theorem c1_amended_witness :
    ("<b><info>" ++ prettify "description" ++ "</info></b>") ∈
      display_normal [("description", Value.str "d")] ["description"] :=
  c1_amended.1 [("description", Value.str "d")] ["description"] "description"
    (Value.str "d") (by decide) (by decide)

/-- Counterexample to C2 as stated: when the first locked package whose
canonical name matches the request happens to equal the root package, the
code raises "not found" instead of returning that match. -/
theorem c2_counterexample :
    get_package_from_dependency ⟨"foo", "foo", "1.0", "d"⟩
        [⟨"foo", "foo", "1.0", "d"⟩] "foo" =
      Except.error "Package \x27foo\x27 not found" ∧
    List.find? (fun l => l.name == canonicalize_name "foo")
        [(⟨"foo", "foo", "1.0", "d"⟩ : Package)] =
      some ⟨"foo", "foo", "1.0", "d"⟩ := by
  constructor
  · rfl
  · rfl

/-- Claim C2 (amended): an empty dependency name resolves to the root
package; a non-empty name resolves to the first locked package whose
canonical name equals the canonicalized request, except that when no such
package exists — or when the first match equals the root package, the
fragile sentinel comparison — the command fails with the fatal
"Package ... not found" error carrying the requested name. -/
theorem c2_amended (root : Package) (locked : List Package) (dep : String) :
    (dep = "" → get_package_from_dependency root locked dep = Except.ok root) ∧
    (dep ≠ "" →
      get_package_from_dependency root locked dep =
        match locked.find? (fun l => l.name == canonicalize_name dep) with
        | some p =>
          if p = root then Except.error ("Package \x27" ++ dep ++ "\x27 not found")
          else Except.ok p
        | none => Except.error ("Package \x27" ++ dep ++ "\x27 not found")) := by
  constructor
  · intro h
    subst h
    rfl
  · intro h
    cases hf : locked.find? (fun l => l.name == canonicalize_name dep) with
    | some p => simp [get_package_from_dependency, h, hf]
    | none => simp [get_package_from_dependency, h, hf]

/-- Witness for the amended C2: resolving a present locked package distinct
from the root. -/
theorem c2_amended_witness :
    get_package_from_dependency ⟨"root", "root", "1.0", "r"⟩
        [⟨"cachy", "cachy", "0.1.0", "Cachy package"⟩] "Cachy" =
      Except.ok ⟨"cachy", "cachy", "0.1.0", "Cachy package"⟩ := by
  have h := (c2_amended ⟨"root", "root", "1.0", "r"⟩
    [⟨"cachy", "cachy", "0.1.0", "Cachy package"⟩] "Cachy").2 (by decide)
  rw [h]
  rfl

/-- Counterexample to C7 as stated: a `project_url` item whose url part
itself contains a comma does not render — the source unpacks
`url.split(",")` into exactly two parts, so the extra comma raises
`ValueError` instead of splitting on the first comma only. -/
theorem c7_counterexample :
    build_rows_from_metadata
        [("project_url", Value.list ["Homepage,https://x.org/a,b"])] =
      Except.error "ValueError: url.split comma unpack" := by rfl

/-- The element-wise mapping inside `display_pretty_urls` succeeds when
every item splits into exactly two parts. -/
theorem display_pretty_urls_mapM (urls : List String)
    (h : ∀ u ∈ urls, ∃ a b, pySplit ',' u = [a, b]) :
    (urls.mapM fun url =>
      match pySplit ',' url with
      | [name, url_] => Except.ok ("<c1>" ++ name ++ "</> -" ++ url_)
      | _ => (Except.error "ValueError: url.split comma unpack" :
          Except String String)) =
      Except.ok (urls.map fun u =>
        match pySplit ',' u with
        | [a, b] => "<c1>" ++ a ++ "</> -" ++ b
        | _ => "") := by
  induction urls with
  | nil => rfl
  | cons u us ih =>
    obtain ⟨a, b, hab⟩ := h u (List.mem_cons_self u us)
    have hus := ih fun x hx => h x (List.mem_cons_of_mem u hx)
    rw [List.mapM_cons, List.map_cons]
    simp only [hab, hus, Bind.bind, Except.bind, Pure.pure, Except.pure]

/-- Claim C7 (amended): each `project_url` list item must contain exactly
one comma; it is split there and rendered as `<c1><name></> -<url>`, the
items joined with a newline plus 3-space indent.  Items whose comma-split
does not have exactly two parts make rendering fail with `ValueError`
instead of rendering. -/
theorem c7_amended (urls : List String)
    (h : ∀ u ∈ urls, ∃ a b, pySplit ',' u = [a, b]) :
    display_pretty_urls urls =
      Except.ok (String.intercalate DISPLAY_GAP_FOR_SAME_KEY
        (urls.map fun u =>
          match pySplit ',' u with
          | [a, b] => "<c1>" ++ a ++ "</> -" ++ b
          | _ => "")) := by
  simp only [display_pretty_urls, display_pretty_urls_mapM urls h, Bind.bind,
    Except.bind, Pure.pure, Except.pure]

/-- Witness for the amended C7: two well-formed `name,url` items. -/
theorem c7_amended_witness :
    display_pretty_urls ["Homepage,https://x.org", "Docs,https://docs.x.org"] =
      Except.ok ("<c1>Homepage</> -https://x.org" ++ DISPLAY_GAP_FOR_SAME_KEY ++
        "<c1>Docs</> -https://docs.x.org") := by
  have h := c7_amended ["Homepage,https://x.org", "Docs,https://docs.x.org"]
    (by
      intro u hu
      simp only [List.mem_cons, List.mem_singleton] at hu
      rcases hu with rfl | rfl | h3
      · exact ⟨"Homepage", "https://x.org", by decide⟩
      · exact ⟨"Docs", "https://docs.x.org", by decide⟩
      · simp at h3)
  rw [h]
  rfl

/-! ### Dictionary lookup lemmas -/

/-- Replacing the value at key `k` does not affect lookups of other keys. -/
theorem lookup_map_ne (d : MetadataRecord) (k : String) (v : Value)
    (k' : String) (h : k' ≠ k) :
    (d.map fun p => if p.1 == k then (k, v) else p).lookup k' = d.lookup k' := by
  induction d with
  | nil => rfl
  | cons hd rest ih =>
    obtain ⟨k0, v0⟩ := hd
    cases hk : k0 == k with
    | true =>
      have hk0 : k0 = k := eq_of_beq hk
      subst hk0
      simp only [List.map_cons, hk, if_true, List.lookup_cons,
        beq_eq_false_iff_ne.mpr h]
      exact ih
    | false =>
      simp only [List.map_cons, hk, Bool.false_eq_true, if_false,
        List.lookup_cons]
      cases he : k' == k0 with
      | true => rfl
      | false => exact ih

/-- The replace-in-place branch of `dictInsert` makes `k` look up to `v`. -/
theorem lookup_map_insert (d : MetadataRecord) (k : String) (v : Value)
    (h : d.any (fun p => p.1 == k) = true) :
    (d.map fun p => if p.1 == k then (k, v) else p).lookup k = some v := by
  induction d with
  | nil => simp at h
  | cons hd rest ih =>
    obtain ⟨k0, v0⟩ := hd
    cases hk : k0 == k with
    | true =>
      simp only [List.map_cons, hk, if_true]
      exact List.lookup_cons_self
    | false =>
      have hne : (k == k0) = false := by
        refine beq_eq_false_iff_ne.mpr fun he => ?_
        exact absurd (by simp [he]) (by simp [hk] : ¬ (k0 == k) = true)
      have h' : rest.any (fun p => p.1 == k) = true := by
        simpa [hk] using h
      simp only [List.map_cons, hk, Bool.false_eq_true, if_false,
        List.lookup_cons, hne]
      exact ih h'

/-- When `k` is absent, no pair of `d` has key `k`. -/
theorem lookup_eq_none_of_not_any (d : MetadataRecord) (k : String)
    (h : ¬ d.any (fun p => p.1 == k) = true) :
    d.lookup k = none := by
  rw [List.lookup_eq_none_iff]
  intro p hp
  simp only [List.any_eq_true, not_exists, not_and] at h
  have := h p hp
  simpa [bne] using fun he => this (by simp [he])

/-- Lemma: `dictInsert` makes its key look up to the inserted value. -/
theorem lookup_dictInsert_self (d : MetadataRecord) (k : String) (v : Value) :
    (dictInsert d k v).lookup k = some v := by
  by_cases h : d.any (fun p => p.1 == k) = true
  · simp only [dictInsert, h, if_true]
    exact lookup_map_insert d k v h
  · simp only [dictInsert, h, if_false, Bool.false_eq_true]
    rw [List.lookup_append, lookup_eq_none_of_not_any d k h]
    simp

/-- Lemma: `dictInsert` does not change lookups of other keys. -/
theorem lookup_dictInsert_ne (d : MetadataRecord) (k : String) (v : Value)
    (k' : String) (h : k' ≠ k) :
    (dictInsert d k v).lookup k' = d.lookup k' := by
  by_cases ha : d.any (fun p => p.1 == k) = true
  · simp only [dictInsert, ha, if_true]
    exact lookup_map_ne d k v k' h
  · simp only [dictInsert, ha, if_false, Bool.false_eq_true]
    rw [List.lookup_append]
    simp [List.lookup_cons, beq_eq_false_iff_ne.mpr h]

/-- Lemma: `dictUpdate` leaves a key absent from both operands absent. -/
theorem lookup_dictUpdate_none (d : MetadataRecord) (j : List (String × Value))
    (k : String) (hd : d.lookup k = none) (hj : ∀ p ∈ j, p.1 ≠ k) :
    (dictUpdate d j).lookup k = none := by
  induction j generalizing d with
  | nil => exact hd
  | cons p ps ih =>
    simp only [dictUpdate, List.foldl_cons]
    refine ih (dictInsert d p.1 p.2) ?_ fun q hq => hj q (List.mem_cons_of_mem p hq)
    rw [lookup_dictInsert_ne d p.1 p.2 k fun he => hj p (List.mem_cons_self p ps) he.symm]
    exact hd

/-- Claim C9: for a found distribution (whose structured metadata does not
itself carry an `entry_points` key, as core metadata never does), each entry
point is formatted `<name> source: <value>` and stored under `entry_points`
exactly when at least one entry point exists; with none, the key is absent
(lookup yields `none`), not an empty list. -/
theorem c9_entry_points (pkg : Package) (d : InstalledDist)
    (h : ∀ p ∈ d.jsonMeta.getD [], p.1 ≠ "entry_points") :
    ((inspect_metadata pkg (some d)).2.lookup "entry_points" =
      if get_entry_points d = [] then none
      else some (Value.list (get_entry_points d))) ∧
    get_entry_points d =
      d.entryPoints.map (fun ep => ep.1 ++ " source: " ++ ep.2) := by
  refine ⟨?_, rfl⟩
  have hseed : (([("name", Value.str pkg.pretty_name),
      ("version", Value.str pkg.pretty_version),
      ("package_description", Value.str pkg.description)] :
        MetadataRecord).lookup "entry_points") = none := by
    simp [List.lookup_cons]
  cases hj : d.jsonMeta with
  | none =>
    cases hep : get_entry_points d with
    | nil =>
      simp only [inspect_metadata, hj, hep, if_pos rfl]
      exact hseed
    | cons e es =>
      simp only [inspect_metadata, hj, hep]
      rw [lookup_dictInsert_self]
      simp
  | some j =>
    have hj' : ∀ p ∈ j, p.1 ≠ "entry_points" := by
      intro p hp
      exact h p (by simpa [hj] using hp)
    cases hep : get_entry_points d with
    | nil =>
      simp only [inspect_metadata, hj, hep, if_pos rfl]
      exact lookup_dictUpdate_none _ j "entry_points" hseed hj'
    | cons e es =>
      simp only [inspect_metadata, hj, hep]
      rw [lookup_dictInsert_self]
      simp

/-- Witness for C9: one entry point, one without. -/
theorem c9_entry_points_witness :
    ((inspect_metadata ⟨"p", "p", "1", "d"⟩
        (some ⟨some [("summary", Value.str "s")],
          [("cli", "pkg.app:main")]⟩)).2.lookup "entry_points" =
      some (Value.list ["cli source: pkg.app:main"])) ∧
    ((inspect_metadata ⟨"p", "p", "1", "d"⟩
        (some ⟨some [("summary", Value.str "s")], []⟩)).2.lookup "entry_points" =
      none) := by
  constructor
  · have h := c9_entry_points ⟨"p", "p", "1", "d"⟩
      ⟨some [("summary", Value.str "s")], [("cli", "pkg.app:main")]⟩
      (by intro p hp; simp at hp; subst hp; decide)
    rw [h.1]
    rfl
  · have h := c9_entry_points ⟨"p", "p", "1", "d"⟩
      ⟨some [("summary", Value.str "s")], []⟩
      (by intro p hp; simp at hp; subst hp; decide)
    rw [h.1]
    rfl

/-! ### Round-trip lemmas (C8) -/

/-- A list is a prefix of itself followed by anything. -/
theorem isPrefixOf_append_self (l t : List Char) : l.isPrefixOf (l ++ t) = true := by
  induction l with
  | nil => simp [List.isPrefixOf]
  | cons c cs ih => simp [List.isPrefixOf, ih]

/-- Re-parsing a header line recovers the prettified key. -/
theorem headerOfLine_header (pk : String) :
    headerOfLine ("<b><info>" ++ pk ++ "</info></b>") = some pk := by
  have hdata : ("<b><info>" ++ pk ++ "</info></b>").data
      = (HEADER_OPEN ++ pk.data) ++ HEADER_CLOSE := rfl
  have hpre : HEADER_OPEN.isPrefixOf ((HEADER_OPEN ++ pk.data) ++ HEADER_CLOSE)
      = true := by
    rw [List.append_assoc]
    exact isPrefixOf_append_self HEADER_OPEN (pk.data ++ HEADER_CLOSE)
  have hdrop : ((HEADER_OPEN ++ pk.data) ++ HEADER_CLOSE).drop 9
      = pk.data ++ HEADER_CLOSE := by
    rw [List.append_assoc]
    have h9 : HEADER_OPEN.length = 9 := rfl
    rw [← h9, List.drop_left]
  have hlen : (pk.data ++ HEADER_CLOSE).length - 11 = pk.data.length := by
    rw [List.length_append]
    rfl
  simp only [headerOfLine, hdata, hpre, if_true, hdrop, hlen, List.take_left]

/-- A scalar value line is not parsed as a header. -/
theorem headerOfLine_scalar (v : String) :
    headerOfLine ("<c2> " ++ v ++ "</c2>") = none := rfl

/-- A list item line is not parsed as a header. -/
theorem headerOfLine_item (item : String) :
    headerOfLine ("<c1> - " ++ item ++ "</c1>") = none := rfl

/-- The blank separator line is not parsed as a header. -/
theorem headerOfLine_blank : headerOfLine "" = none := rfl

/-- Item lines of a list-valued property parse to no header. -/
theorem filterMap_item_lines (items : List String) :
    ((items.map fun item => "<c1> - " ++ item ++ "</c1>").filterMap
      headerOfLine) = [] := by
  rw [List.filterMap_eq_nil_iff]
  intro a ha
  obtain ⟨item, _, rfl⟩ := List.mem_map.mp ha
  exact headerOfLine_item item

/-- The headers printed by an unfiltered Normal-mode rendering are exactly
the prettified non-skip-list keys, in record order. -/
theorem filterMap_display_normal (data : MetadataRecord) :
    (display_normal data []).filterMap headerOfLine =
      (data.filter fun p => !SKIP_PROPERTIES.contains p.1).map
        fun p => prettify p.1 := by
  induction data with
  | nil => rfl
  | cons hd rest ih =>
    obtain ⟨key, value⟩ := hd
    cases hs : SKIP_PROPERTIES.contains key with
    | true =>
      simp only [display_normal, hs, List.isEmpty_nil, Bool.and_self, if_true,
        List.filter_cons, Bool.not_true, Bool.false_eq_true, if_false]
      exact ih
    | false =>
      cases value with
      | str v =>
        simp only [display_normal, hs, List.isEmpty_nil, Bool.not_true,
          Bool.false_and, Bool.and_false, Bool.false_eq_true, if_false,
          List.filter_cons, Bool.not_false, if_true, List.map_cons,
          List.cons_append, List.nil_append, List.filterMap_cons,
          headerOfLine_header, headerOfLine_scalar, headerOfLine_blank,
          List.filterMap_append, List.filterMap_nil, List.append_assoc]
        rw [ih]
      | list items =>
        simp only [display_normal, hs, List.isEmpty_nil, Bool.not_true,
          Bool.false_and, Bool.and_false, Bool.false_eq_true, if_false,
          List.filter_cons, Bool.not_false, if_true, List.map_cons,
          List.cons_append, List.nil_append, List.filterMap_cons,
          headerOfLine_header, headerOfLine_blank, List.filterMap_append,
          List.filterMap_nil, filterMap_item_lines, List.append_assoc]
        rw [ih]

/-- Mapping a function that fixes every element of a list is the identity. -/
theorem map_id_of_mem {f : Char → Char} (l : List Char)
    (h : ∀ c ∈ l, f c = c) : l.map f = l := by
  induction l with
  | nil => rfl
  | cons c cs ih =>
    rw [List.map_cons, h c (List.mem_cons_self c cs),
      ih fun x hx => h x (List.mem_cons_of_mem c hx)]

/-- On real key characters, the reversal undoes capitalization of the
replaced first character. -/
theorem unprettify_char_head : ∀ c ∈ keyChars,
    (if (if c = '_' then ' ' else c).toUpper.toLower = ' ' then '_'
     else (if c = '_' then ' ' else c).toUpper.toLower) = c := by decide

/-- On real key characters, the reversal undoes lower-casing of a replaced
tail character. -/
theorem unprettify_char_tail : ∀ c ∈ keyChars,
    (if (Char.toLower (if c = '_' then ' ' else c)).toLower = ' ' then '_'
     else (Char.toLower (if c = '_' then ' ' else c)).toLower) = c := by decide

/-- On keys made of real key characters, the header reversal inverts
`prettify`. -/
theorem unprettify_prettify (k : String) (h : ∀ c ∈ k.data, c ∈ keyChars) :
    unprettify (prettify k) = k := by
  obtain ⟨l⟩ := k
  cases l with
  | nil => rfl
  | cons c cs =>
    show String.mk
        ((if (if c = '_' then ' ' else c).toUpper.toLower = ' ' then '_'
          else (if c = '_' then ' ' else c).toUpper.toLower) ::
         ((cs.map fun x => if x = '_' then ' ' else x).map Char.toLower).map
           fun x => if x.toLower = ' ' then '_' else x.toLower) =
      String.mk (c :: cs)
    rw [unprettify_char_head c (h c (List.mem_cons_self c cs))]
    rw [List.map_map, List.map_map]
    exact congrArg String.mk (congrArg (List.cons c)
      (map_id_of_mem cs fun x hx =>
        unprettify_char_tail x (h x (List.mem_cons_of_mem c hx))))

/-- Counterexample to C8 as stated: for a record key that is not
lowercase-without-spaces (here `"A"`), lowercasing the printed header does
not recover the key, so the round-trip fails for arbitrary MetadataRecords. -/
theorem c8_counterexample :
    recoveredKeys [("A", Value.str "v")] = ["a"] ∧
    ([("A", Value.str "v")].filter
        (fun p => !SKIP_PROPERTIES.contains p.1)).map Prod.fst = ["A"] ∧
    recoveredKeys [("A", Value.str "v")] ≠
      ([("A", Value.str "v")].filter
        (fun p => !SKIP_PROPERTIES.contains p.1)).map Prod.fst := by decide

/-- Claim C8 (amended): for every MetadataRecord whose keys consist of
lowercase letters, digits, `_`, `-`, `.` (as all real metadata keys do),
re-parsing the headers of an unfiltered Normal-mode rendering and applying
the reversal (lowercase, spaces to underscores) recovers exactly the keys
minus the skip-list keys, in order. -/
theorem c8_amended (data : MetadataRecord)
    (h : ∀ p ∈ data, ∀ c ∈ (p.1 : String).data, c ∈ keyChars) :
    recoveredKeys data =
      (data.filter fun p => !SKIP_PROPERTIES.contains p.1).map Prod.fst := by
  unfold recoveredKeys
  rw [filterMap_display_normal, List.map_map]
  refine List.map_congr_left fun p hp => ?_
  exact unprettify_prettify p.1 (h p (List.mem_of_mem_filter hp))

/-- Witness for the amended C8: a record with skip-list and regular keys. -/
theorem c8_amended_witness :
    recoveredKeys [("name", Value.str "x"), ("summary", Value.str "s"),
        ("author_email", Value.str "a")] = ["name", "author_email"] := by
  have h := c8_amended [("name", Value.str "x"), ("summary", Value.str "s"),
      ("author_email", Value.str "a")] (by decide)
  rw [h]
  rfl
